import Mathlib

/-
Shallow embedding of the go-builder command-line tool (src/main.go) in Lean 4.

Strings are modelled by Lean String (a wrapper around List Char); the Go
standard-library functions the program calls (strings.ToLower, strings.Split,
filepath.Join, filepath.Clean, filepath.Base) are modelled for Unix path
semantics and per-character ASCII lower-casing, which is how they behave on all
inputs that occur in this program. Effects (subprocess execution, os.Environ,
os.Getwd) are modelled by passing their outcomes as explicit parameters.
-/

/-- Models the OSARCH struct of main.go: a user target filter. -/
structure OSARCH where
  OS : String
  ARCH : String
deriving DecidableEq, Repr

/-- Models the GoDist struct of main.go: one toolchain-supported platform. -/
structure GoDist where
  GOOS : String
  GOARCH : String
  CgoSupported : Bool
  FirstClass : Bool
deriving DecidableEq, Repr

/-- Models the BuildConfig struct of main.go. -/
structure BuildConfig where
  ProjectDir : String
  OutputDir : String
  BinaryName : String
  Targets : List OSARCH
deriving DecidableEq, Repr

/-- Models the sentinel error values declared at the top of main.go, plus the
wrapped errors produced by getBuildOptions and getProjectName. -/
inductive GoError where
  | invalidOSARCH
  | unsupportedTargetOSARCH
  | failedBuildCommand
  | distError (msg : String)
  | jsonParseError (msg : String)
  | getwdError (msg : String)
deriving DecidableEq, Repr

/-- Sentinel ErrInvalidOSARCH of main.go. -/
def ErrInvalidOSARCH : GoError := .invalidOSARCH

/-- Sentinel ErrUnsupportedTargetOSARCH of main.go. -/
def ErrUnsupportedTargetOSARCH : GoError := .unsupportedTargetOSARCH

/-- Models the inner loop of getTargetBuilds (main.go lines 74-87): scan
allDists once for one target, appending every match to the accumulator. -/
def appendMatching (target : OSARCH) (acc : List GoDist) : List GoDist → List GoDist
  | [] => acc
  | dist :: rest =>
    if target.ARCH = "" then
      if target.OS = dist.GOOS then appendMatching target (acc ++ [dist]) rest
      else appendMatching target acc rest
    else
      if target.OS = dist.GOOS ∧ target.ARCH = dist.GOARCH then
        appendMatching target (acc ++ [dist]) rest
      else appendMatching target acc rest

/-- Models getTargetBuilds of main.go (lines 67-90). -/
def getTargetBuilds (targets : List OSARCH) (allDists : List GoDist) : List GoDist :=
  if targets.length = 0 then allDists
  else targets.foldl (fun targetDists target => appendMatching target targetDists allDists) []

/-- The spec's match rule for one filter against one catalog entry: with an
empty ARCH the filter matches on OS alone, otherwise on both fields. -/
def distMatches (target : OSARCH) (dist : GoDist) : Bool :=
  if target.ARCH = "" then target.OS == dist.GOOS
  else target.OS == dist.GOOS && target.ARCH == dist.GOARCH

/-- The spec's description of filtering: the concatenation, over the filters in
their given order, of the catalog entries in catalog order matching each
filter (duplicates preserved). -/
def filterConcat : List OSARCH → List GoDist → List GoDist
  | [], _ => []
  | t :: ts, catalog => catalog.filter (distMatches t) ++ filterConcat ts catalog

theorem appendMatching_eq (target : OSARCH) :
    ∀ (dists acc : List GoDist),
      appendMatching target acc dists = acc ++ dists.filter (distMatches target) := by
  intro dists
  induction dists with
  | nil => intro acc; simp [appendMatching]
  | cons d rest ih =>
    intro acc
    by_cases hA : target.ARCH = ""
    · by_cases hO : target.OS = d.GOOS
      · simp [appendMatching, hA, hO, ih, distMatches, List.filter_cons]
      · simp [appendMatching, hA, hO, ih, distMatches, List.filter_cons]
    · by_cases hB : target.OS = d.GOOS ∧ target.ARCH = d.GOARCH
      · simp [appendMatching, hA, hB, ih, distMatches, List.filter_cons, hB.1, hB.2]
      · have : ¬ (target.OS == d.GOOS && target.ARCH == d.GOARCH) = true := by
          simpa [Decidable.not_and_iff_or_not] using hB
        simp [appendMatching, hA, hB, ih, distMatches, List.filter_cons, this]

theorem foldl_appendMatching_eq (allDists : List GoDist) :
    ∀ (targets : List OSARCH) (acc : List GoDist),
      targets.foldl (fun targetDists target => appendMatching target targetDists allDists) acc
        = acc ++ filterConcat targets allDists := by
  intro targets
  induction targets with
  | nil => intro acc; simp [filterConcat]
  | cons t ts ih =>
    intro acc
    rw [List.foldl_cons]
    show List.foldl _ (appendMatching t acc allDists) ts = _
    rw [appendMatching_eq, ih, filterConcat, List.append_assoc]

/-- C1: for every non-empty filter sequence and every catalog, getTargetBuilds
returns exactly the concatenation, over the filters in order, of the catalog
entries in catalog order matching each filter (empty-ARCH filters match on OS
alone, non-empty-ARCH filters match on both OS and ARCH; duplicates are
preserved, not deduplicated). -/
theorem getTargetBuilds_eq_filterConcat (targets : List OSARCH) (catalog : List GoDist)
    (h : targets ≠ []) : getTargetBuilds targets catalog = filterConcat targets catalog := by
  have hlen : targets.length ≠ 0 := by
    simpa using List.length_pos.mpr h |>.ne'
  simp only [getTargetBuilds, if_neg hlen]
  simpa using foldl_appendMatching_eq catalog targets []

/-- The spec's five-platform scenario catalog. -/
def scenarioCatalog : List GoDist :=
  [⟨"windows", "x86", false, true⟩, ⟨"darwin", "arm64", true, true⟩,
   ⟨"linux", "x86", true, true⟩, ⟨"linux", "arm64", true, true⟩,
   ⟨"bsd", "arm64", false, false⟩]

/-- Witness for C1 at the spec's scenario: filter ["linux"] against the
five-platform catalog selects the two linux entries in catalog order. -/
theorem getTargetBuilds_eq_filterConcat_witness :
    getTargetBuilds [⟨"linux", ""⟩] scenarioCatalog = filterConcat [⟨"linux", ""⟩] scenarioCatalog
    ∧ filterConcat [⟨"linux", ""⟩] scenarioCatalog
        = [⟨"linux", "x86", true, true⟩, ⟨"linux", "arm64", true, true⟩] :=
  ⟨getTargetBuilds_eq_filterConcat [⟨"linux", ""⟩] scenarioCatalog (by decide), by decide⟩

/-- C2: getTargetBuilds with an empty filter sequence is the identity on the
catalog: the same entries in the same order. -/
theorem getTargetBuilds_nil_targets (catalog : List GoDist) :
    getTargetBuilds [] catalog = catalog := rfl

/-- Models Go strings.Split for a one-character separator on the character
list: splits around each occurrence of the separator; the empty list yields
one empty part. -/
def splitOnChar (sep : Char) : List Char → List (List Char)
  | [] => [[]]
  | c :: cs =>
    if c = sep then [] :: splitOnChar sep cs
    else
      match splitOnChar sep cs with
      | [] => [[c]]
      | h :: t => (c :: h) :: t

/-- Models Go strings.ToLower (per-character ASCII case folding, which is what
Char.toLower performs and all inputs of this program exercise). -/
def goToLower (s : String) : String := ⟨s.data.map Char.toLower⟩

/-- Models Go strings.Split applied by parseStringToOSARCH with separator
slash, repacking each part as a String. -/
def goSplit (s : String) (sep : Char) : List String :=
  (splitOnChar sep s.data).map fun l => String.mk l

/-- Models parseStringToOSARCH of main.go (lines 148-171). Go returns the pair
of an OSARCH value and an error; the pair is modelled directly so the value
returned alongside an error is visible. -/
def parseStringToOSARCH (rawStr : String) : OSARCH × Option GoError :=
  if rawStr = "" then (⟨"", ""⟩, some ErrInvalidOSARCH)
  else
    match goSplit (goToLower rawStr) '/' with
    | [o] => (⟨o, ""⟩, none)
    | [o, a] => (⟨o, a⟩, none)
    | _ => (⟨"", ""⟩, some ErrInvalidOSARCH)

theorem splitOnChar_ne_nil (sep : Char) (l : List Char) : splitOnChar sep l ≠ [] := by
  induction l with
  | nil => simp [splitOnChar]
  | cons c cs ih =>
    by_cases h : c = sep
    · simp [splitOnChar, h]
    · simp only [splitOnChar, if_neg h]
      cases hsplit : splitOnChar sep cs with
      | nil => simp
      | cons a t => simp

theorem splitOnChar_of_not_mem (sep : Char) (l : List Char) (h : sep ∉ l) :
    splitOnChar sep l = [l] := by
  induction l with
  | nil => rfl
  | cons c cs ih =>
    have hc : c ≠ sep := fun hEq => h (hEq ▸ List.mem_cons_self c cs)
    have hcs : sep ∉ cs := fun hMem => h (List.mem_cons_of_mem c hMem)
    simp only [splitOnChar, if_neg hc, ih hcs]

theorem splitOnChar_append (sep : Char) (l r : List Char) (hl : sep ∉ l) (hr : sep ∉ r) :
    splitOnChar sep (l ++ sep :: r) = [l, r] := by
  induction l with
  | nil => simp [splitOnChar, splitOnChar_of_not_mem sep r hr]
  | cons c cs ih =>
    have hc : c ≠ sep := fun hEq => hl (hEq ▸ List.mem_cons_self c cs)
    have hcs : sep ∉ cs := fun hMem => hl (List.mem_cons_of_mem c hMem)
    simp only [List.cons_append, splitOnChar, if_neg hc, List.append_eq]
    rw [ih hcs]

theorem splitOnChar_length (sep : Char) (l : List Char) :
    (splitOnChar sep l).length = l.count sep + 1 := by
  induction l with
  | nil => simp [splitOnChar]
  | cons c cs ih =>
    by_cases h : c = sep
    · simp [splitOnChar, h, List.count_cons, ih]
    · simp only [splitOnChar, if_neg h]
      cases hsplit : splitOnChar sep cs with
      | nil => exact absurd hsplit (splitOnChar_ne_nil sep cs)
      | cons a t =>
        rw [hsplit] at ih
        simp only [List.length_cons] at ih ⊢
        have hbeq : ¬ (c == sep) = true := by simpa using h
        simp [List.count_cons, hbeq, ih]

theorem char_toNat_ofNat {n : Nat} (h : n.isValidChar) : (Char.ofNat n).toNat = n := by
  simp only [Char.ofNat, dif_pos h, Char.ofNatAux, Char.toNat, UInt32.toNat,
    BitVec.toNat_ofNatLt]

theorem toLower_ne_slash {c : Char} (h : c ≠ '/') : Char.toLower c ≠ '/' := by
  intro hEq
  by_cases hcond : c.toNat ≥ 65 ∧ c.toNat ≤ 90
  · have hEq2 : Char.ofNat (c.toNat + 32) = '/' := by
      simpa [Char.toLower, hcond] using hEq
    have hvalid : (Char.toNat c + 32).isValidChar := Or.inl (by omega)
    have hval := congrArg Char.toNat hEq2
    rw [char_toNat_ofNat hvalid] at hval
    have h47 : Char.toNat '/' = 47 := rfl
    rw [h47] at hval
    omega
  · have hid : Char.toLower c = c := by simp [Char.toLower, hcond]
    rw [hid] at hEq
    exact h hEq

theorem count_slash_map_toLower (l : List Char) :
    (l.map Char.toLower).count '/' = l.count '/' := by
  induction l with
  | nil => rfl
  | cons c cs ih =>
    by_cases h : c = '/'
    · subst h
      have : Char.toLower '/' = '/' := rfl
      simp [List.count_cons, this, ih]
    · have h2 : Char.toLower c ≠ '/' := toLower_ne_slash h
      have hb : ¬ (c == '/') = true := by simpa using h
      have hb2 : ¬ (Char.toLower c == '/') = true := by simpa using h2
      simp [List.count_cons, hb, hb2, ih]

theorem not_mem_of_count_eq_zero {l : List Char} {c : Char} (h : l.count c = 0) : c ∉ l := by
  simpa using List.count_eq_zero.mp h

/-- C3: parseStringToOSARCH rejects the empty string, otherwise lower-cases
the whole input and splits on the slash separator: zero separators give the
whole lower-cased string as OS with empty ARCH, exactly one separator gives
the left part as OS and the right part as ARCH (either may be empty), and two
or more separators are an error; including the spec's concrete examples. -/
theorem parseStringToOSARCH_spec (s : String) :
    parseStringToOSARCH "" = (⟨"", ""⟩, some ErrInvalidOSARCH)
    ∧ (s ≠ "" → s.data.count '/' = 0 →
        parseStringToOSARCH s = (⟨goToLower s, ""⟩, none))
    ∧ (s ≠ "" → ∀ l r, (goToLower s).data = l ++ '/' :: r → '/' ∉ l → '/' ∉ r →
        parseStringToOSARCH s = (⟨⟨l⟩, ⟨r⟩⟩, none))
    ∧ (s ≠ "" → 2 ≤ s.data.count '/' →
        parseStringToOSARCH s = (⟨"", ""⟩, some ErrInvalidOSARCH))
    ∧ parseStringToOSARCH "windows/x86" = (⟨"windows", "x86"⟩, none)
    ∧ parseStringToOSARCH "WINDOWS/X86" = (⟨"windows", "x86"⟩, none)
    ∧ parseStringToOSARCH "windows" = (⟨"windows", ""⟩, none)
    ∧ parseStringToOSARCH "a/b/c" = (⟨"", ""⟩, some ErrInvalidOSARCH) := by
  refine ⟨by decide, ?_, ?_, ?_, by decide, by decide, by decide, by decide⟩
  · intro hs h0
    have hnot : '/' ∉ (goToLower s).data := by
      apply not_mem_of_count_eq_zero
      show (s.data.map Char.toLower).count '/' = 0
      rw [count_slash_map_toLower]
      exact h0
    have hsplit : splitOnChar '/' (goToLower s).data = [(goToLower s).data] :=
      splitOnChar_of_not_mem _ _ hnot
    unfold parseStringToOSARCH
    rw [if_neg hs]
    unfold goSplit
    rw [hsplit]
    rfl
  · intro hs l r hdecomp hl hr
    have hsplit : splitOnChar '/' (goToLower s).data = [l, r] := by
      rw [hdecomp]
      exact splitOnChar_append '/' l r hl hr
    unfold parseStringToOSARCH
    rw [if_neg hs]
    unfold goSplit
    rw [hsplit]
    rfl
  · intro hs h2
    have hlen : (splitOnChar '/' (goToLower s).data).length = s.data.count '/' + 1 := by
      have hcount : (goToLower s).data.count '/' = s.data.count '/' :=
        count_slash_map_toLower s.data
      rw [splitOnChar_length, hcount]
    have hshape : ∃ a b c2 t, splitOnChar '/' (goToLower s).data = a :: b :: c2 :: t := by
      rcases hsp : splitOnChar '/' (goToLower s).data with _ | ⟨a, _ | ⟨b, _ | ⟨c2, t⟩⟩⟩
      · exact absurd hsp (splitOnChar_ne_nil _ _)
      · rw [hsp] at hlen
        simp only [List.length_cons, List.length_nil] at hlen
        omega
      · rw [hsp] at hlen
        simp only [List.length_cons, List.length_nil] at hlen
        omega
      · exact ⟨a, b, c2, t, rfl⟩
    obtain ⟨a, b, c2, t, hsplit⟩ := hshape
    unfold parseStringToOSARCH
    rw [if_neg hs]
    unfold goSplit
    rw [hsplit]
    rfl

/-- Witness for C3: a one-separator input with mixed case, instantiating the
general one-separator clause at concrete left and right parts. -/
theorem parseStringToOSARCH_spec_witness :
    parseStringToOSARCH "go/AMD64" = (⟨"go", "amd64"⟩, none) :=
  (parseStringToOSARCH_spec "go/AMD64").2.2.1 (by decide) "go".data "amd64".data
    (by decide) (by decide) (by decide)

/-- C9: whenever parseStringToOSARCH reports an error, the OSARCH value
returned alongside it is exactly the zero value with empty OS and ARCH. -/
theorem parseStringToOSARCH_zero_on_error (s : String)
    (h : (parseStringToOSARCH s).2 ≠ none) :
    (parseStringToOSARCH s).1 = ⟨"", ""⟩ := by
  by_cases hs : s = ""
  · subst hs
    rfl
  · unfold parseStringToOSARCH at h ⊢
    rw [if_neg hs] at h ⊢
    rcases hsp : goSplit (goToLower s) '/' with _ | ⟨o, _ | ⟨a, _ | ⟨b, t⟩⟩⟩
    · rfl
    · rw [hsp] at h
      exact absurd rfl h
    · rw [hsp] at h
      exact absurd rfl h
    · rfl

/-- Witness for C9 at a three-part input. -/
theorem parseStringToOSARCH_zero_on_error_witness :
    (parseStringToOSARCH "x/y/z").2 ≠ none ∧ (parseStringToOSARCH "x/y/z").1 = ⟨"", ""⟩ :=
  ⟨by decide, parseStringToOSARCH_zero_on_error "x/y/z" (by decide)⟩

/-- Models the component-processing loop of Go filepath.Clean (Unix rules):
empty and dot components are dropped, a dotdot component pops the previous
component when one exists and is kept only on non-rooted paths otherwise. -/
def cleanComps (rooted : Bool) : List String → List String → List String
  | acc, [] => acc.reverse
  | acc, c :: cs =>
    if c = "" ∨ c = "." then cleanComps rooted acc cs
    else if c = ".." then
      match acc with
      | [] => if rooted then cleanComps rooted [] cs else cleanComps rooted [".."] cs
      | top :: rest =>
        if top = ".." then cleanComps rooted (".." :: acc) cs
        else cleanComps rooted rest cs
    else cleanComps rooted (c :: acc) cs

/-- Models Go filepath.Clean for Unix separators. -/
def goClean (p : String) : String :=
  if p = "" then "."
  else
    let rooted : Bool := p.data.head? == some '/'
    let comps := cleanComps rooted [] ((splitOnChar '/' p.data).map String.mk)
    let joined := String.intercalate "/" comps
    if rooted then (if joined = "" then "/" else "/" ++ joined)
    else (if joined = "" then "." else joined)

/-- Models Go filepath.Join for Unix separators: starting from the first
non-empty element, the elements are joined with the slash separator and the
result is cleaned; with no non-empty element the result is empty. -/
def goFilepathJoin (elems : List String) : String :=
  match elems.dropWhile (fun e => e == "") with
  | [] => ""
  | rest => goClean (String.intercalate "/" rest)

/-- Models the GOOSEnv method of main.go (lines 50-52). -/
def GoDist.GOOSEnv (d : GoDist) : String := "GOOS=" ++ d.GOOS

/-- Models the GOARCHEnv method of main.go (lines 54-56). -/
def GoDist.GOARCHEnv (d : GoDist) : String := "GOARCH=" ++ d.GOARCH

/-- Models lines 121-125 of Build in main.go: the output filename, with the
.exe suffix for the windows and nt operating systems. -/
def buildFilename (config : BuildConfig) (dist : GoDist) : String :=
  let filename := config.BinaryName ++ "-" ++ dist.GOOS ++ "_" ++ dist.GOARCH
  if dist.GOOS = "windows" ∨ dist.GOOS = "nt" then filename ++ ".exe" else filename

/-- The observable shape of the subprocess built by exec.Command in Build:
program, arguments, working directory and environment. -/
structure ExecCmd where
  prog : String
  args : List String
  dir : String
  env : List String
deriving DecidableEq, Repr

/-- Models the subprocess construction of Build in main.go (lines 119-134).
The process environment os.Environ is external and passed explicitly as
environ; running the subprocess is external and out of the model. -/
def Build (environ : List String) (config : BuildConfig) (dist : GoDist) : ExecCmd :=
  let fp := goFilepathJoin [config.OutputDir, buildFilename config dist]
  { prog := "go"
    args := ["build", "-o", fp, config.ProjectDir]
    dir := config.ProjectDir
    env := environ ++ [dist.GOOSEnv, dist.GOARCHEnv] }

/-- Models getBuildOptions of main.go (lines 92-117). The catalog fetch (the
go tool dist list subprocess plus JSON unmarshalling, lines 93-104) is
external; its outcome is passed as fetched, either the error of one of the
two stages or the parsed catalog. -/
def getBuildOptions (fetched : Except GoError (List GoDist)) (targets : List OSARCH) :
    List GoDist × Option GoError :=
  match fetched with
  | .error e => ([], some e)
  | .ok supportedDists =>
    if targets.length = 0 then (supportedDists, none)
    else
      let targetDists := getTargetBuilds targets supportedDists
      if targetDists.length > 0 then (targetDists, none)
      else ([], some ErrUnsupportedTargetOSARCH)

/-- Models Go filepath.Base for Unix separators: the empty path gives ".",
trailing slashes are stripped, the final component is returned, and an
all-slash path gives "/". -/
def goBase (p : String) : String :=
  if p = "" then "."
  else
    let r := p.data.reverse.dropWhile (fun c => c == '/')
    let base := r.takeWhile (fun c => c != '/')
    if base = [] then "/" else String.mk base.reverse

/-- Models getProjectName of main.go (lines 173-186); the os.Getwd outcome is
external and passed explicitly as getwd. -/
def getProjectName (getwd : Except GoError String) (projFp : String) :
    String × Option GoError :=
  if projFp = "." then
    match getwd with
    | .error e => ("", some e)
    | .ok wd => (goBase wd, none)
  else (goBase projFp, none)

/-- C4: when the catalog fetch and parse succeed, getBuildOptions with a
non-empty filter sequence returns the distinct ErrUnsupportedTargetOSARCH
error when filtering yields no distribution, returns the filtered sequence
with no error when filtering yields at least one, and with an empty filter
sequence returns the full fetched catalog with no error. -/
theorem getBuildOptions_spec (dists : List GoDist) (targets : List OSARCH) :
    (targets ≠ [] → getTargetBuilds targets dists = [] →
        getBuildOptions (.ok dists) targets = ([], some ErrUnsupportedTargetOSARCH))
    ∧ (targets ≠ [] → getTargetBuilds targets dists ≠ [] →
        getBuildOptions (.ok dists) targets = (getTargetBuilds targets dists, none))
    ∧ getBuildOptions (.ok dists) [] = (dists, none) := by
  refine ⟨?_, ?_, rfl⟩
  · intro ht hempty
    have hlen : targets.length ≠ 0 := by simpa using ht
    simp [getBuildOptions, hlen, hempty]
  · intro ht hne
    have hlen : targets.length ≠ 0 := by simpa using ht
    have hpos : 0 < (getTargetBuilds targets dists).length := List.length_pos.mpr hne
    simp [getBuildOptions, hlen, hpos]

/-- Witness for C4: one catalog entry, one unmatched filter and one matched
filter. -/
theorem getBuildOptions_spec_witness :
    getBuildOptions (.ok [⟨"linux", "amd64", true, true⟩]) [⟨"plan9", ""⟩]
        = ([], some ErrUnsupportedTargetOSARCH)
    ∧ getBuildOptions (.ok [⟨"linux", "amd64", true, true⟩]) [⟨"linux", ""⟩]
        = ([⟨"linux", "amd64", true, true⟩], none) :=
  ⟨(getBuildOptions_spec [⟨"linux", "amd64", true, true⟩] [⟨"plan9", ""⟩]).1
      (by decide) (by decide),
   ((getBuildOptions_spec [⟨"linux", "amd64", true, true⟩] [⟨"linux", ""⟩]).2.1
      (by decide) (by decide)).trans (by decide)⟩

/-- C5: the build job's output filename is BinaryName-GOOS_GOARCH with the
.exe suffix appended exactly when the distribution's OS is windows or nt, and
the output path passed to the build subprocess is that filename joined under
config.OutputDir; including the spec's two concrete examples. -/
theorem Build_output_spec (environ : List String) (config : BuildConfig) (dist : GoDist) :
    (dist.GOOS = "windows" ∨ dist.GOOS = "nt" →
        buildFilename config dist
          = config.BinaryName ++ "-" ++ dist.GOOS ++ "_" ++ dist.GOARCH ++ ".exe")
    ∧ (¬(dist.GOOS = "windows" ∨ dist.GOOS = "nt") →
        buildFilename config dist
          = config.BinaryName ++ "-" ++ dist.GOOS ++ "_" ++ dist.GOARCH)
    ∧ (Build environ config dist).args
        = ["build", "-o", goFilepathJoin [config.OutputDir, buildFilename config dist],
           config.ProjectDir]
    ∧ buildFilename ⟨"p", "o", "app", []⟩ ⟨"windows", "x86", false, true⟩
        = "app-windows_x86.exe"
    ∧ buildFilename ⟨"p", "o", "app", []⟩ ⟨"linux", "arm64", true, true⟩
        = "app-linux_arm64" := by
  refine ⟨?_, ?_, rfl, by decide, by decide⟩
  · intro h
    simp only [buildFilename]
    rw [if_pos h]
  · intro h
    simp only [buildFilename]
    rw [if_neg h]

/-- Witness for C5: the legacy nt alias gets the .exe suffix and the output
path is the filename under the output directory. -/
theorem Build_output_spec_witness :
    buildFilename ⟨"proj", "out", "tool", []⟩ ⟨"nt", "386", false, false⟩ = "tool-nt_386.exe"
    ∧ (Build ["PATH=/bin"] ⟨"proj", "out", "tool", []⟩ ⟨"nt", "386", false, false⟩).args
        = ["build", "-o", "out/tool-nt_386.exe", "proj"] :=
  ⟨((Build_output_spec ["PATH=/bin"] ⟨"proj", "out", "tool", []⟩
        ⟨"nt", "386", false, false⟩).1 (Or.inr rfl)).trans (by decide),
   ((Build_output_spec ["PATH=/bin"] ⟨"proj", "out", "tool", []⟩
        ⟨"nt", "386", false, false⟩).2.2.1).trans (by decide)⟩

/-- C8: the build subprocess runs with its working directory set to
config.ProjectDir and its environment equal to the whole process environment
with exactly the two overrides GOOS and GOARCH appended, nothing removed or
altered. -/
theorem Build_env_spec (environ : List String) (config : BuildConfig) (dist : GoDist) :
    (Build environ config dist).dir = config.ProjectDir
    ∧ (Build environ config dist).env = environ ++ [dist.GOOSEnv, dist.GOARCHEnv]
    ∧ dist.GOOSEnv = "GOOS=" ++ dist.GOOS
    ∧ dist.GOARCHEnv = "GOARCH=" ++ dist.GOARCH :=
  ⟨rfl, rfl, rfl, rfl⟩

/-- C6: getProjectName returns the final path component of its argument, and
for the input "." the base name of the current working directory, not the
whole working-directory path; including the spec's example path. -/
theorem getProjectName_spec (getwd : Except GoError String) (projFp : String) :
    (projFp ≠ "." → getProjectName getwd projFp = (goBase projFp, none))
    ∧ (∀ wd, getwd = .ok wd → getProjectName getwd "." = (goBase wd, none))
    ∧ goBase "/usr/home/u/projects/myproject" = "myproject" := by
  refine ⟨?_, ?_, by decide⟩
  · intro h
    unfold getProjectName
    rw [if_neg h]
  · intro wd hwd
    subst hwd
    rfl

/-- Witness for C6 at the spec's example path and a concrete working
directory. -/
theorem getProjectName_spec_witness :
    getProjectName (.ok "/tmp/work") "/usr/home/u/projects/myproject" = ("myproject", none)
    ∧ getProjectName (.ok "/tmp/work") "." = ("work", none) :=
  ⟨((getProjectName_spec (.ok "/tmp/work") "/usr/home/u/projects/myproject").1
      (by decide)).trans (by decide),
   ((getProjectName_spec (.ok "/tmp/work") ".").2.1 "/tmp/work" rfl).trans (by decide)⟩

/-- C10: getProjectName returns no error for any input other than ".", and
in particular the empty string succeeds yielding ".". -/
theorem getProjectName_no_error (getwd : Except GoError String) (projFp : String) :
    (projFp ≠ "." → (getProjectName getwd projFp).2 = none)
    ∧ getProjectName getwd "" = (".", none) := by
  constructor
  · intro h
    unfold getProjectName
    rw [if_neg h]
  · rfl

/-- Witness for C10: no error even when the working directory cannot be
determined, because the path is not ".". -/
theorem getProjectName_no_error_witness :
    (getProjectName (.error (.getwdError "gone")) "src").2 = none :=
  (getProjectName_no_error (.error (.getwdError "gone")) "src").1 (by decide)
